import Mathlib

/-!
Shallow embedding of the GRE_Practiser core (src/app.py): question catalog,
attempted-question bitmap, selection engine, test-session lifecycle, scoring
engine and history aggregator.  Python floats are modelled as IEEE-754
binary64 values: a signed 53-bit significand times a power of two, with
float() parsing and subtraction rounding to nearest, ties to even, exactly as
the hardware does (the exponent is unbounded, so overflow to infinity and
subnormal flushing are not modelled — faithful for every result in the normal
range); the float parser covers the plain decimal forms accepted by Python's
float().  Randomness (random.sample / random.shuffle) is modelled by
an explicit sampler parameter constrained by the SampleSpec predicate, so all
theorems quantify over every possible random outcome.
-/

/-- A JSON-ish value as submitted for an answer or stored in a question's
`correct` field: Python None, str, int, or list. -/
inductive PyVal where
  | none : PyVal
  | str : String → PyVal
  | int : Int → PyVal
  | listV : List PyVal → PyVal

/-- Errors raised by scoring code paths and caught by the outer
`except Exception` handler in score_answer (app.py:605). -/
inductive PyErr where
  | keyError : PyErr
  | typeError : PyErr
  | indexError : PyErr
deriving DecidableEq

/-- A catalog question as consumed by the scoring / selection code:
`type` is one of "mc", "ma", "qc", "numeric"; `options` is `Option`al
because `question['options']` may be a missing key (KeyError on access). -/
structure Question where
  id : Nat
  type : String
  correct : PyVal
  options : Option (List String)

def PyVal.isStr : PyVal → Bool
  | .str _ => true
  | _ => false

def PyVal.isListV : PyVal → Bool
  | .listV _ => true
  | _ => false

/-- The single-quote character, used by Python repr of strings. -/
def squote : String := String.singleton (Char.ofNat 39)

mutual
/-- Python repr() for the values in our universe (used inside str() of a list). -/
def pyRepr : PyVal → String
  | .none => "None"
  | .str s => squote ++ s ++ squote
  | .int n => toString n
  | .listV xs => "[" ++ String.intercalate ", " (pyReprList xs) ++ "]"

def pyReprList : List PyVal → List String
  | [] => []
  | x :: xs => pyRepr x :: pyReprList xs
end

/-- Python str() for the values in our universe. -/
def pyStr : PyVal → String
  | .none => "None"
  | .str s => s
  | .int n => toString n
  | .listV xs => "[" ++ String.intercalate ", " (pyReprList xs) ++ "]"

/-- Digit list to natural number, most significant first. -/
def digitsVal (cs : List Char) : Nat :=
  cs.foldl (fun a c => 10 * a + (c.toNat - 48)) 0

/-- A finite IEEE-754 binary64 value `m * 2 ^ ex` (signed significand `m`
with |m| ≤ 2^53 after rounding, power-of-two exponent).  The exponent is
carried as an unbounded integer, so the model agrees with binary64 on every
value in the normal range. -/
structure Fp where
  m : Int
  ex : Int
deriving DecidableEq

/-- The rational value denoted by a binary64 value. -/
def Fp.toQ (f : Fp) : ℚ := (f.m : ℚ) * 2 ^ f.ex

/-- Bit length of a natural number, by fuel-based structural recursion (the
fuel `n` always suffices since the argument halves each step). -/
def bitlenF : Nat → Nat → Nat
  | 0, _ => 0
  | fuel + 1, n => if n = 0 then 0 else bitlenF fuel (n / 2) + 1

def bitlen (n : Nat) : Nat := bitlenF n n

/-- round(N / D) to the nearest integer, ties to even (D > 0): the rounding
step shared by every IEEE round-to-nearest-even operation below. -/
def divRound (N D : Nat) : Nat :=
  let m0 := N / D
  let r := N % D
  if D < 2 * r then m0 + 1
  else if 2 * r < D then m0
  else if m0 % 2 = 0 then m0 else m0 + 1

/-- Round an exact dyadic intermediate result M * 2 ^ E to 53 significant
bits, nearest-even: the IEEE rounding of an exact sum/difference. -/
def roundDyadic (M : Int) (E : Int) : Fp :=
  let A := M.natAbs
  if A < 2 ^ 53 then ⟨M, E⟩
  else
    let s := bitlen A - 53
    let sign : Int := if M < 0 then -1 else 1
    ⟨sign * divRound A (2 ^ s), E + s⟩

/-- The binary64 value nearest to p / q (p, q > 0; 0 when p = 0): scale
p / q into [2^52, 2^53) by a power of two determined from the bit lengths,
then round the scaled quotient to the nearest integer, ties to even. -/
def roundPosRat (p q : Nat) : Fp :=
  if p = 0 then ⟨0, 0⟩
  else
    let s0 : Int := 52 + (bitlen q : Int) - (bitlen p : Int)
    let N0 := if 0 ≤ s0 then p * 2 ^ s0.toNat else p
    let D0 := if 0 ≤ s0 then q else q * 2 ^ (-s0).toNat
    if 2 ^ 52 * D0 ≤ N0 then ⟨divRound N0 D0, -s0⟩
    else ⟨divRound (2 * N0) D0, -s0 - 1⟩

/-- Strip leading and trailing whitespace from a character list (the effect
of str.strip() / the stripping float() itself performs). -/
def trimChars (cs : List Char) : List Char :=
  ((cs.dropWhile Char.isWhitespace).reverse.dropWhile Char.isWhitespace).reverse

/-- The exponent suffix of a float literal: empty, or [eE][+-]?digits. -/
def parseExp : List Char → Option Int
  | [] => some 0
  | c :: rest =>
      if c = 'e' ∨ c = 'E' then
        match rest with
        | '+' :: ds =>
            if !ds.isEmpty && ds.all Char.isDigit then some (digitsVal ds) else Option.none
        | '-' :: ds =>
            if !ds.isEmpty && ds.all Char.isDigit then some (-(digitsVal ds : Int))
            else Option.none
        | ds =>
            if !ds.isEmpty && ds.all Char.isDigit then some (digitsVal ds) else Option.none
      else Option.none

/-- The binary64 value nearest to the decimal p / 10 ^ k scaled by 10 ^ e,
with the given sign applied. -/
def buildFloat (sign : Int) (p : Nat) (k : Nat) (e : Int) : Fp :=
  let d := e - (k : Int)
  let f := if 0 ≤ d then roundPosRat (p * 10 ^ d.toNat) 1 else roundPosRat p (10 ^ (-d).toNat)
  ⟨sign * f.m, f.ex⟩

/-- Python float() on a string: optional sign, digits with at most one
point and at least one digit, and an optional [eE][+-]?digits exponent,
with surrounding whitespace stripped as float() does.  The inf / nan
spellings and digit-group underscores are not modelled, and the exponent
range is unbounded (no overflow to infinity).  Result is the binary64
value nearest to the literal, as float() produces. -/
def parseFloat (s : String) : Option Fp :=
  let cs := trimChars s.toList
  let signed : Int × List Char :=
    match cs with
    | '-' :: rest => (-1, rest)
    | '+' :: rest => (1, rest)
    | _ => (1, cs)
  let sign := signed.1
  let cs := signed.2
  let intPart := cs.takeWhile Char.isDigit
  let rest := cs.dropWhile Char.isDigit
  match rest with
  | '.' :: rest2 =>
      let frac := rest2.takeWhile Char.isDigit
      let rest3 := rest2.dropWhile Char.isDigit
      if intPart.isEmpty && frac.isEmpty then Option.none
      else
        match parseExp rest3 with
        | some e =>
            some (buildFloat sign (digitsVal intPart * 10 ^ frac.length + digitsVal frac)
              frac.length e)
        | Option.none => Option.none
  | _ =>
      if intPart.isEmpty then Option.none
      else
        match parseExp rest with
        | some e => some (buildFloat sign (digitsVal intPart) 0 e)
        | Option.none => Option.none

/-- Python float() on a value: strings are parsed, ints converted to the
nearest binary64, None and lists raise TypeError (here: parse failure,
since the caller's `except (ValueError, TypeError)` treats both
identically). -/
def pyFloat : PyVal → Option Fp
  | .str s => parseFloat s
  | .int n => some (roundDyadic n 0)
  | _ => Option.none

/-- IEEE binary64 absolute value (exact). -/
def fpAbs (a : Fp) : Fp := ⟨(a.m.natAbs : Int), a.ex⟩

/-- IEEE binary64 subtraction: the exact dyadic difference, rounded to 53
bits nearest-even. -/
def fpSub (a b : Fp) : Fp :=
  let e := min a.ex b.ex
  roundDyadic (a.m * 2 ^ (a.ex - e).toNat - b.m * 2 ^ (b.ex - e).toNat) e

/-- IEEE binary64 comparison `<` on finite values: the numeric order,
decided exactly over a common power-of-two denominator. -/
def fpLt (a b : Fp) : Bool :=
  if a.ex ≤ b.ex then decide (a.m < b.m * 2 ^ (b.ex - a.ex).toNat)
  else decide (a.m * 2 ^ (a.ex - b.ex).toNat < b.m)

/-- The float literal `0.01` of app.py:601: the binary64 value nearest to
1/100 (slightly above it). -/
def fp001 : Fp := roundPosRat 1 100

/-- The fixed canonical option list for quantitative-comparison questions
(app.py:578-583). -/
def QC_OPTIONS : List String :=
  ["Quantity A is greater",
   "Quantity B is greater",
   "The two quantities are equal",
   "The relationship cannot be determined from the information given"]

/-- `user_answer is None or user_answer == ''` (app.py:554). -/
def isNoneOrEmpty : PyVal → Bool
  | .none => true
  | .str s => s.isEmpty
  | _ => false

/-- Python list indexing `options[i]` including negative indices;
out-of-range raises IndexError. -/
def pyIndexStr (os : List String) (n : Int) : Except PyErr String :=
  if 0 ≤ n then
    if n < (os.length : Int) then .ok (os.getD n.toNat "") else .error .indexError
  else
    let m := (os.length : Int) + n
    if 0 ≤ m then .ok (os.getD m.toNat "") else .error .indexError

/-- `[question['options'][i] for i in correct_indices if i < len(question['options'])]`
(app.py:573): missing options key raises KeyError, a non-int index raises
TypeError in the comparison, a too-negative index raises IndexError. -/
def maTexts (opts : Option (List String)) : List PyVal → Except PyErr (List String)
  | [] => .ok []
  | i :: rest =>
      match opts with
      | Option.none => .error .keyError
      | some os =>
          match i with
          | .int n =>
              if n < (os.length : Int) then
                match pyIndexStr os n with
                | .error e => .error e
                | .ok t =>
                    match maTexts opts rest with
                    | .error e => .error e
                    | .ok ts => .ok (t :: ts)
              else maTexts opts rest
          | _ => .error .typeError

/-- The strings among a list of values (the only elements that can coincide
with elements of a Python set of strings). -/
def strsOf (l : List PyVal) : List String :=
  l.filterMap (fun v => match v with | .str s => some s | _ => Option.none)

/-- `set(user_answer) == set(correct_texts)` (app.py:574): an unhashable
(list) element raises TypeError; otherwise the sets are equal iff every
element is a string and the two string sets coincide. -/
def pySetEq (ua : List PyVal) (cts : List String) : Except PyErr Bool :=
  if ua.any PyVal.isListV then .error .typeError
  else .ok (ua.all PyVal.isStr &&
            ((strsOf ua).all (fun s => cts.contains s) &&
             cts.all (fun s => (strsOf ua).contains s)))

/-- First index of the answer in QC_OPTIONS, `user_answer in QC_OPTIONS`
followed by `.index(user_answer)` (app.py:590-591); only a string can
match. -/
def qcIndex : PyVal → Option Nat
  | .str s => QC_OPTIONS.indexOf? s
  | _ => Option.none

/-- The body of score_answer's `try` block (app.py:560-603), with Python
exceptions made explicit.  The numeric branch's inner try/except is folded
into the Option results of parseFloat/pyFloat since ValueError and TypeError
both yield False there. -/
def score_body (q : Question) (a : PyVal) : Except PyErr Bool :=
  if q.type = "mc" then
    match q.correct with
    | .int n =>
        match q.options with
        | Option.none => .error .keyError
        | some os =>
            if 0 ≤ n ∧ n < (os.length : Int) then
              .ok (pyStr a == os.getD n.toNat "")
            else .ok false
    | _ => .ok false
  else if q.type = "ma" then
    match a with
    | .listV ua =>
        let cidx : List PyVal :=
          match q.correct with
          | .listV l => l
          | c => [c]
        match maTexts q.options cidx with
        | .error e => .error e
        | .ok cts => pySetEq ua cts
    | _ => .ok false
  else if q.type = "qc" then
    let cIdx : Int := match q.correct with | .int n => n | _ => 0
    .ok (match qcIndex a with
         | Option.none => false
         | some i => (i : Int) == cIdx)
  else if q.type = "numeric" then
    .ok (match parseFloat (pyStr a), pyFloat q.correct with
         | some u, some c => fpLt (fpAbs (fpSub u c)) fp001
         | _, _ => false)
  else .ok false

/-- score_answer (app.py:552-609): the empty/None answer check, then the
try body, with the catch-all `except Exception` handler resolving every
raised error to False. -/
def score_answer (q : Question) (a : PyVal) : Bool :=
  if isNoneOrEmpty a then false
  else
    match score_body q a with
    | .ok b => b
    | .error _ => false

/-! ## Attempted-question bitmap (app.py:228-283)

The persisted AttemptedSet: a byte array with bit `(id-1) % 8` of byte
`(id-1) / 8` marking question `id` as attempted.  Base64/DB round-tripping
is identity on the byte content and is not modelled. -/

/-- is_question_attempted_bitmap (app.py:265-272). -/
def is_attempted (bitmap : List Nat) (qid : Nat) : Bool :=
  let idx := qid - 1
  let byteIdx := idx / 8
  let bitIdx := idx % 8
  if byteIdx < bitmap.length then (bitmap.getD byteIdx 0).testBit bitIdx else false

/-- mark_question_attempted_bitmap (app.py:255-263): extend with zero bytes
up to the needed byte, then set the bit. -/
def mark_attempted (bitmap : List Nat) (qid : Nat) : List Nat :=
  let idx := qid - 1
  let byteIdx := idx / 8
  let bitIdx := idx % 8
  let bm := bitmap ++ List.replicate (byteIdx + 1 - bitmap.length) 0
  bm.set byteIdx (bm.getD byteIdx 0 ||| (1 <<< bitIdx))

/-- get_attempted_questions (app.py:274-280): ids of catalog questions whose
bitmap bit is set. -/
def get_attempted_questions (catalog : List Question) (bitmap : List Nat) : List Nat :=
  (catalog.filter (fun q => is_attempted bitmap q.id)).map Question.id

/-! ## Selection engine (app.py:141-153, 285-316) -/

/-- GRE_DISTRIBUTION['types'] (app.py:141-147), in dict insertion order. -/
def GRE_DISTRIBUTION_types : List (String × ℚ) :=
  [("qc", 0.40), ("mc", 0.30), ("ma", 0.15), ("numeric", 0.15)]

/-- Per-type target counts (app.py:296-299): `int(weight * num_questions)`
for each type (int() of the nonnegative product is the floor), then any
shortfall against `num_questions` added to the 'mc' entry. -/
def target_types (num : Nat) : List (String × Nat) :=
  let base := GRE_DISTRIBUTION_types.map (fun p => (p.1, (⌊p.2 * (num : ℚ)⌋).toNat))
  let total := (base.map Prod.snd).sum
  if total < num then
    base.map (fun p => if p.1 = "mc" then (p.1, p.2 + (num - total)) else p)
  else base

/-- The random choices of one select_questions call: `sample i pool k` is
the outcome of the i-th random.sample call (i = 0..3 for the per-type
draws, i = 4 for the backfill draw), `shuffle` of random.shuffle. -/
structure Sampler where
  sample : Nat → List Question → Nat → List Question
  shuffle : List Question → List Question

/-- What random.sample and random.shuffle guarantee: a sample of size
`k ≤ |pool|` is a permutation of a k-element sublist of the pool, and a
shuffle is a permutation. -/
structure SampleSpec (smp : Sampler) : Prop where
  sample_len : ∀ i l k, k ≤ l.length → (smp.sample i l k).length = k
  sample_sub : ∀ i l k, k ≤ l.length → ∃ l', l'.Sublist l ∧ (smp.sample i l k).Perm l'
  shuffle_perm : ∀ l, (smp.shuffle l).Perm l

/-- The ids of the already-selected questions, `[s['id'] for s in selected]`. -/
def selectedIds (sel : List Question) : List Nat := sel.map Question.id

/-- The per-type selection loop (app.py:302-307): for each (type, count)
pair take the eligible pool of that type not already selected, and draw
`count` at random if the pool is large enough, otherwise take all of it. -/
def selectLoop (smp : Sampler) (available : List Question) :
    Nat → List (String × Nat) → List Question → List Question
  | _, [], sel => sel
  | i, (t, c) :: rest, sel =>
      let typeQs := available.filter
        (fun q => q.type == t && !((selectedIds sel).contains q.id))
      let picked := if typeQs.length ≥ c then smp.sample i typeQs c else typeQs
      selectLoop smp available (i + 1) rest (sel ++ picked)

/-- The eligible pool: `[q for q in all_questions if q['id'] not in attempted]`
(app.py:288). -/
def availableQs (catalog : List Question) (bitmap : List Nat) : List Question :=
  catalog.filter (fun q => !((get_attempted_questions catalog bitmap).contains q.id))

/-- The backfill step (app.py:309-313): if the per-type draws are short of
`num`, draw the remainder at random from the eligible questions not already
selected. -/
def backfill (smp : Sampler) (available : List Question) (num : Nat)
    (sel : List Question) : List Question :=
  if sel.length < num then
    let remaining := available.filter (fun q => !((selectedIds sel).contains q.id))
    sel ++ smp.sample 4 remaining (min (num - sel.length) remaining.length)
  else sel

/-- select_questions (app.py:285-316).  Returns the ordered selection and
the persisted bitmap after the call: when fewer than `num` questions are
eligible the stored bitmap is reset to empty and selection draws from the
full catalog. -/
def select_questions (smp : Sampler) (catalog : List Question) (bitmap : List Nat)
    (num : Nat) : List Question × List Nat :=
  let av := availableQs catalog bitmap
  let exhausted := av.length < num
  let available := if exhausted then catalog else av
  let bitmap' := if exhausted then [] else bitmap
  let sel2 := backfill smp available num (selectLoop smp available 0 (target_types num) [])
  ((smp.shuffle sel2).take num, bitmap')

/-! ## Test session, history and routes (app.py:387-422, 481-550, 658-663) -/

/-- A finalized test summary (app.py:523-529); `date` is an abstract
timestamp. -/
structure HistoryEntry where
  date : Nat
  format : String
  accuracy : ℚ
  correct : Nat
  total : Nat
deriving DecidableEq

/-- session['last_results'] minus the per-question detail list
(app.py:539-544). -/
structure LastResults where
  accuracy : ℚ
  correct : Nat
  total : Nat

/-- session['current_test'] (app.py:413-419): answers are keyed by the
string form of the question id. -/
structure CurrentTest where
  format : String
  question_ids : List Nat
  time_limit : Nat
  start_time : Nat
  answers : List (String × PyVal)

/-- The per-user mutable state: the Flask session keys the core reads and
writes, plus the persisted attempted-question bitmap. -/
structure Session where
  current_test : Option CurrentTest
  current_question_idx : Option Nat
  clear_gre_timer : Bool
  bitmap : List Nat
  test_history : List HistoryEntry
  last_results : Option LastResults

/-- test_params (app.py:396-400). -/
structure TestParams where
  questions : Nat
  time : Nat

/-- dict .get on a string-keyed association list. -/
def dictGet {α : Type} (l : List (String × α)) (k : String) : Option α :=
  (l.find? (fun p => p.1 == k)).map Prod.snd

def test_params : List (String × TestParams) :=
  [("quick", ⟨12, 18⟩), ("standard", ⟨15, 23⟩), ("full", ⟨27, 47⟩)]

/-- start_test (app.py:387-422): clears any existing test data, then
validates the format; an unknown format redirects to index (the Bool result
is false) with no further changes; a valid one selects questions, marks
them attempted and installs the new current test.  `now` abstracts
datetime.now(). -/
def start_test (smp : Sampler) (catalog : List Question) (now : Nat) (fmt : String)
    (s : Session) : Session × Bool :=
  let s := { s with current_test := Option.none, current_question_idx := Option.none,
                    clear_gre_timer := true }
  match dictGet test_params fmt with
  | Option.none => (s, false)
  | some p =>
      let r := select_questions smp catalog s.bitmap p.questions
      let ids := (r.1).map Question.id
      let bm := ids.foldl mark_attempted r.2
      ({ s with bitmap := bm,
                current_test := some ⟨fmt, ids, p.time, now, []⟩,
                current_question_idx := some 0 }, true)

/-- question_lookup (app.py:432/489): dict built by comprehension, so a
later duplicate id overwrites an earlier one. -/
def question_lookup (catalog : List Question) (qid : Nat) : Option Question :=
  catalog.foldl (fun acc q => if q.id = qid then some q else acc) Option.none

/-- answers.get(str(q_id)) (app.py:499). -/
def lookupAnswer (answers : List (String × PyVal)) (k : String) : Option PyVal :=
  (answers.find? (fun p => p.1 == k)).map Prod.snd

/-- The scoring loop of submit_test (app.py:497-515): look each session
question up in the catalog (KeyError — modelled as failure — if absent) and
score the stored answer, a missing answer scoring as None. -/
def gradeAll (catalog : List Question) (answers : List (String × PyVal)) :
    List Nat → Option (List Bool)
  | [] => some []
  | qid :: rest =>
      match question_lookup catalog qid with
      | Option.none => Option.none
      | some q =>
          (gradeAll catalog answers rest).map
            (fun bs => score_answer q ((lookupAnswer answers (toString qid)).getD PyVal.none) :: bs)

/-- Round a rational to the nearest integer, ties to even (Python round()). -/
def roundHalfEven (x : ℚ) : ℤ :=
  let f := ⌊x⌋
  let r := x - f
  if r < 1/2 then f else if 1/2 < r then f + 1 else if f % 2 = 0 then f else f + 1

/-- round(x, 1) (app.py:517). -/
def pyRound1 (x : ℚ) : ℚ := (roundHalfEven (x * 10) : ℚ) / 10

/-- The last `n` entries, `list[-n:]`. -/
def lastN {α : Type} (n : Nat) (l : List α) : List α := l.drop (l.length - n)

/-- The history entry a finalized session appends (app.py:493-529):
`accuracy = round((correct / total * 100) if total > 0 else 0, 1)`.
Fails (None) when a session question id is not in the catalog. -/
def entryOf (catalog : List Question) (now : Nat) (t : CurrentTest) :
    Option HistoryEntry :=
  (gradeAll catalog t.answers t.question_ids).map (fun results =>
    let correct : Nat := results.count true
    let total : Nat := t.question_ids.length
    let accuracy := pyRound1 (if 0 < total then (correct : ℚ) / total * 100 else 0)
    ⟨now, t.format, accuracy, correct, total⟩)

/-- submit_test (app.py:481-550): no active test is a no-op redirect;
otherwise score everything, append the history entry, keep only the last
10 entries, store last_results and drop the current test. -/
def submit_test (catalog : List Question) (now : Nat) (s : Session) : Option Session :=
  match s.current_test with
  | Option.none => some s
  | some t =>
      (entryOf catalog now t).map (fun e =>
        { s with test_history := lastN 10 (s.test_history ++ [e]),
                 last_results := some ⟨e.accuracy, e.correct, e.total⟩,
                 current_test := Option.none })

/-- reset_history (app.py:658-663): stores an empty attempted bitmap and
touches nothing else. -/
def reset_history (s : Session) : Session := { s with bitmap := [] }

/-- Install a prepared test as the current session and finalize it
immediately (one start/submit cycle as far as the history log is
concerned). -/
def installAndSubmit (catalog : List Question) (now : Nat) (s : Session)
    (t : CurrentTest) : Option Session :=
  submit_test catalog now { s with current_test := some t }

/-- Finalize a sequence of sessions in order. -/
def runSessions (catalog : List Question) (now : Nat) :
    Session → List CurrentTest → Option Session
  | s, [] => some s
  | s, t :: ts =>
      match installAndSubmit catalog now s t with
      | Option.none => Option.none
      | some s' => runSessions catalog now s' ts

/-- The entries a list of prepared tests would append, when every one of
their questions resolves in the catalog. -/
def entriesOf (catalog : List Question) (now : Nat) :
    List CurrentTest → Option (List HistoryEntry)
  | [] => some []
  | t :: ts =>
      match entryOf catalog now t, entriesOf catalog now ts with
      | some e, some es => some (e :: es)
      | _, _ => Option.none

/-- A deterministic sampler (take from the front, no shuffling); a concrete
instance of SampleSpec used by witnesses. -/
def takeSampler : Sampler where
  sample := fun _ l k => l.take k
  shuffle := fun l => l

/-! ## Concrete inputs used by counterexamples and witnesses -/

def qMC : Question := ⟨1, "mc", .int 0, some ["Option A", "Option B", "Option C"]⟩
def qMA : Question := ⟨2, "ma", .listV [.int 0, .int 2], some ["Option A", "Option B", "Option C"]⟩
def qQC : Question := ⟨3, "qc", .int 1, Option.none⟩
def qNum : Question := ⟨4, "numeric", .str "10.50", Option.none⟩
def cat4 : List Question := [qMC, qMA, qQC, qNum]

def tA : CurrentTest := ⟨"quick", [1], 18, 0, []⟩
def sessA : Session := ⟨some tA, some 0, false, [], [], Option.none⟩

def cat1 : List Question := [qMC]
def t1 : CurrentTest := ⟨"quick", [1], 18, 0, [("1", PyVal.str "Option A")]⟩
def sess1 : Session := ⟨some t1, Option.none, false, [], [], Option.none⟩
def t0 : CurrentTest := ⟨"quick", [], 18, 0, []⟩
def ts11 : List CurrentTest := List.replicate 11 t0
def sess0 : Session := ⟨Option.none, Option.none, false, [], [], Option.none⟩
def e0 : HistoryEntry := ⟨0, "quick", pyRound1 0, 0, 0⟩
def es11 : List HistoryEntry := List.replicate 11 e0

/-! ## Helper lemmas -/

theorem length_filter_split {α : Type} (l : List α) (p : α → Bool) :
    (l.filter p).length + (l.filter (fun a => !(p a))).length = l.length := by
  induction l with
  | nil => simp
  | cons a l ih =>
      by_cases h : p a = true
      · simp [List.filter, h, ← ih]; omega
      · have h' : p a = false := by simpa using h
        simp [List.filter, h', ← ih]; omega

theorem sample_mem {smp : Sampler} (hs : SampleSpec smp) {i : Nat} {l : List Question}
    {k : Nat} (hk : k ≤ l.length) : ∀ q ∈ smp.sample i l k, q ∈ l := by
  intro q hq
  obtain ⟨l', hsub, hperm⟩ := hs.sample_sub i l k hk
  exact hsub.subset (hperm.mem_iff.mp hq)

theorem sample_nodup {smp : Sampler} (hs : SampleSpec smp) {i : Nat} {l : List Question}
    {k : Nat} (hk : k ≤ l.length) (h : (l.map Question.id).Nodup) :
    ((smp.sample i l k).map Question.id).Nodup := by
  obtain ⟨l', hsub, hperm⟩ := hs.sample_sub i l k hk
  exact ((hperm.map Question.id).nodup_iff).mpr ((hsub.map Question.id).nodup h)

theorem takeSampler_spec : SampleSpec takeSampler where
  sample_len := fun _ l k hk => by
    simpa [takeSampler] using Nat.min_eq_left hk
  sample_sub := fun _ l k _ => ⟨l.take k, List.take_sublist k l, List.Perm.refl _⟩
  shuffle_perm := fun l => List.Perm.refl l

theorem floor_q_div_mul (a b n : ℕ) :
    (⌊((a : ℚ) / b) * n⌋).toNat = a * n / b := by
  rw [Int.floor_toNat]
  rw [show ((a : ℚ) / b) * n = ((a * n : ℕ) : ℚ) / (b : ℚ) by push_cast; ring]
  rw [Nat.floor_div_nat, Nat.floor_natCast]

theorem target_weight_qc (n : ℕ) : (⌊(0.40 : ℚ) * n⌋).toNat = 2 * n / 5 := by
  rw [show (0.40 : ℚ) = ((2 : ℕ) : ℚ) / ((5 : ℕ) : ℚ) by norm_num]
  exact floor_q_div_mul 2 5 n

theorem target_weight_mc (n : ℕ) : (⌊(0.30 : ℚ) * n⌋).toNat = 3 * n / 10 := by
  rw [show (0.30 : ℚ) = ((3 : ℕ) : ℚ) / ((10 : ℕ) : ℚ) by norm_num]
  exact floor_q_div_mul 3 10 n

theorem target_weight_ma (n : ℕ) : (⌊(0.15 : ℚ) * n⌋).toNat = 3 * n / 20 := by
  rw [show (0.15 : ℚ) = ((3 : ℕ) : ℚ) / ((20 : ℕ) : ℚ) by norm_num]
  exact floor_q_div_mul 3 20 n

theorem target_types_eq (n : ℕ) :
    target_types n =
      [("qc", 2 * n / 5),
       ("mc", 3 * n / 10 + (n - (2 * n / 5 + (3 * n / 10 + (3 * n / 20 + 3 * n / 20))))),
       ("ma", 3 * n / 20), ("numeric", 3 * n / 20)] := by
  unfold target_types GRE_DISTRIBUTION_types
  simp only [List.map_cons, List.map_nil, List.sum_cons, List.sum_nil,
    target_weight_qc, target_weight_mc, target_weight_ma, Nat.add_zero]
  by_cases h : 2 * n / 5 + (3 * n / 10 + (3 * n / 20 + 3 * n / 20)) < n
  · simp only [h, if_true]
    norm_num
    exact ⟨fun hq => absurd hq (by decide), fun hq => absurd hq (by decide),
           fun hq => absurd hq (by decide)⟩
  · simp only [h, if_false]
    have hle : 2 * n / 5 + (3 * n / 10 + (3 * n / 20 + 3 * n / 20)) ≤ n := by omega
    have : n - (2 * n / 5 + (3 * n / 10 + (3 * n / 20 + 3 * n / 20))) = 0 := by omega
    simp [this]

theorem target_types_sum (n : ℕ) : ((target_types n).map Prod.snd).sum = n := by
  rw [target_types_eq]
  simp only [List.map_cons, List.map_nil, List.sum_cons, List.sum_nil]
  have h5 : 2 * n / 5 ≤ 2 * n / 5 := le_refl _
  omega

/-- C8: in distribution-balanced sampling each type's target is
`int(weight * count)` = floor(weight * count); the qc/ma/numeric entries are
exactly those floors, the whole shortfall against `count` is added to the
single-choice ('mc') entry, and the adjusted per-type targets sum to
exactly `count`. -/
theorem C8_targets (num : Nat) :
    target_types num =
      [("qc", (⌊(0.40 : ℚ) * num⌋).toNat),
       ("mc", (⌊(0.30 : ℚ) * num⌋).toNat +
          (num - ((⌊(0.40 : ℚ) * num⌋).toNat + ((⌊(0.30 : ℚ) * num⌋).toNat +
                  ((⌊(0.15 : ℚ) * num⌋).toNat + (⌊(0.15 : ℚ) * num⌋).toNat))))),
       ("ma", (⌊(0.15 : ℚ) * num⌋).toNat),
       ("numeric", (⌊(0.15 : ℚ) * num⌋).toNat)] ∧
    ((target_types num).map Prod.snd).sum = num := by
  constructor
  · rw [target_types_eq, target_weight_qc, target_weight_mc, target_weight_ma]
  · exact target_types_sum num

/-- C10: reset_history clears the attempted-question bitmap (afterwards no
question id is marked attempted) and leaves every other piece of per-user
state — the stored test history, the current test, the question index, the
timer flag and the last results — unchanged. -/
theorem C10_reset_history (s : Session) :
    (∀ qid, is_attempted (reset_history s).bitmap qid = false) ∧
    (reset_history s).test_history = s.test_history ∧
    (reset_history s).current_test = s.current_test ∧
    (reset_history s).current_question_idx = s.current_question_idx ∧
    (reset_history s).clear_gre_timer = s.clear_gre_timer ∧
    (reset_history s).last_results = s.last_results := by
  refine ⟨fun qid => ?_, rfl, rfl, rfl, rfl, rfl⟩
  simp [reset_history, is_attempted]

/-- C2 counterexample: start_test with an unknown format key does NOT leave
the session exactly as it was — a prior Active test session is discarded
(current_test is popped) before the format is validated. -/
theorem C2_counterexample :
    sessA.current_test = some tA ∧
    (start_test takeSampler [] 0 "bogus" sessA).2 = false ∧
    (start_test takeSampler [] 0 "bogus" sessA).1.current_test = Option.none := by
  exact ⟨rfl, rfl, rfl⟩

/-- C2 amended: start_test with a format key outside the known format table
fails (redirect, no new test installed) and changes nothing except the
unconditional clearing it performs first: current_test and
current_question_idx are removed and clear_gre_timer is set; the bitmap,
history and last results are untouched. -/
theorem C2_amended (smp : Sampler) (catalog : List Question) (now : Nat) (fmt : String)
    (s : Session) (h : dictGet test_params fmt = Option.none) :
    (start_test smp catalog now fmt s).2 = false ∧
    (start_test smp catalog now fmt s).1 =
      { s with current_test := Option.none, current_question_idx := Option.none,
               clear_gre_timer := true } := by
  unfold start_test
  rw [h]
  exact ⟨rfl, rfl⟩

/-- C2 amended witness: the concrete unknown format "bogus" against a
session holding an active test. -/
theorem C2_amended_witness :
    dictGet test_params "bogus" = Option.none ∧
    ((start_test takeSampler [] 0 "bogus" sessA).2 = false ∧
     (start_test takeSampler [] 0 "bogus" sessA).1 =
       { sessA with current_test := Option.none, current_question_idx := Option.none,
                    clear_gre_timer := true }) :=
  ⟨rfl, C2_amended takeSampler [] 0 "bogus" sessA rfl⟩

/-- C1 counterexample: when the eligible pool is exhausted, select_questions
does un-mark previously attempted ids — with a one-question catalog whose
question is already attempted, after selection the persisted bitmap no
longer marks it. -/
theorem C1_counterexample :
    is_attempted (mark_attempted [] 1) 1 = true ∧
    is_attempted (select_questions takeSampler [qMC] (mark_attempted [] 1) 1).2 1 = false := by
  exact ⟨by decide, by decide⟩

/-- C1 amended: the persisted AttemptedSet after select_questions is empty
(every id un-marked) whenever the eligible pool is smaller than the
requested count, and is exactly the previous bitmap otherwise; the explicit
reset operation is thus not the only clearer of the AttemptedSet. -/
theorem C1_amended (smp : Sampler) (catalog : List Question) (bitmap : List Nat)
    (num : Nat) (qid : Nat) :
    is_attempted (select_questions smp catalog bitmap num).2 qid =
      if (availableQs catalog bitmap).length < num then false
      else is_attempted bitmap qid := by
  show is_attempted
      (if (availableQs catalog bitmap).length < num then [] else bitmap) qid = _
  by_cases h : (availableQs catalog bitmap).length < num
  · simp [h, is_attempted]
  · simp [h]

theorem fpLt_iff (a b : Fp) : fpLt a b = true ↔ a.toQ < b.toQ := by
  unfold fpLt Fp.toQ
  by_cases h : a.ex ≤ b.ex
  · rw [if_pos h, decide_eq_true_eq]
    have hd : (((b.ex - a.ex).toNat : ℤ)) = b.ex - a.ex := Int.toNat_of_nonneg (by omega)
    have hpos : (0 : ℚ) < (2 : ℚ) ^ a.ex := zpow_pos (by norm_num) _
    have key : (b.m : ℚ) * 2 ^ b.ex =
        ((b.m * 2 ^ (b.ex - a.ex).toNat : ℤ) : ℚ) * 2 ^ a.ex := by
      push_cast
      rw [← zpow_natCast (2 : ℚ) (b.ex - a.ex).toNat, hd, mul_assoc,
        ← zpow_add₀ (by norm_num : (2 : ℚ) ≠ 0)]
      rw [sub_add_cancel]
    rw [key, mul_lt_mul_right hpos, Int.cast_lt]
  · rw [if_neg h, decide_eq_true_eq]
    have hd : (((a.ex - b.ex).toNat : ℤ)) = a.ex - b.ex := Int.toNat_of_nonneg (by omega)
    have hpos : (0 : ℚ) < (2 : ℚ) ^ b.ex := zpow_pos (by norm_num) _
    have key : (a.m : ℚ) * 2 ^ a.ex =
        ((a.m * 2 ^ (a.ex - b.ex).toNat : ℤ) : ℚ) * 2 ^ b.ex := by
      push_cast
      rw [← zpow_natCast (2 : ℚ) (a.ex - b.ex).toNat, hd, mul_assoc,
        ← zpow_add₀ (by norm_num : (2 : ℚ) ≠ 0)]
      rw [sub_add_cancel]
    rw [key, mul_lt_mul_right hpos, Int.cast_lt]

theorem fpAbs_toQ (a : Fp) : (fpAbs a).toQ = |a.toQ| := by
  unfold fpAbs Fp.toQ
  have hpos : (0 : ℚ) < (2 : ℚ) ^ a.ex := zpow_pos (by norm_num) _
  rw [abs_mul, abs_of_pos hpos]
  show ((a.m.natAbs : ℤ) : ℚ) * 2 ^ a.ex = |(a.m : ℚ)| * 2 ^ a.ex
  rw [Int.cast_natAbs]
  push_cast
  ring

theorem fpAbsLt_iff (x y : Fp) : fpLt (fpAbs x) y = true ↔ |x.toQ| < y.toQ := by
  rw [fpLt_iff, fpAbs_toQ]

/-- C3 counterexample: the program does NOT reject "10.51" against
correct = "10.50".  Scoring runs in IEEE binary64: float("10.51") is
10.509999999999999787…, the computed difference is 0.009999999999999787…,
strictly below the float 0.01, so score_answer returns true where the claim
asserts false. -/
theorem C3_counterexample :
    score_answer qNum (.str "10.51") = true := by decide

/-- C3 amended: numeric scoring accepts "10.5" against correct "10.50",
but also accepts "10.51": the tolerance test runs on IEEE binary64 values,
where float("10.51") = 5916604010457989 * 2^-49, float("10.50") =
5910974510923776 * 2^-49, their difference 5629499534213 * 2^-49 ≈
0.0099999999999998 lies strictly below the float literal 0.01 =
5764607523034235 * 2^-59, so the decimal difference 0.01 is not the failing
boundary.  In general a numeric answer scores true exactly when both sides
parse and the rounded binary64 difference is strictly below the binary64
value of 0.01; a parse failure on either side scores false. -/
theorem C3_amended :
    score_answer qNum (.str "10.5") = true ∧
    score_answer qNum (.str "10.51") = true ∧
    parseFloat "10.5" = some ⟨5910974510923776, -49⟩ ∧
    parseFloat "10.50" = some ⟨5910974510923776, -49⟩ ∧
    parseFloat "10.51" = some ⟨5916604010457989, -49⟩ ∧
    fp001 = ⟨5764607523034235, -59⟩ ∧
    |Fp.toQ (fpSub ⟨5916604010457989, -49⟩ ⟨5910974510923776, -49⟩)| < Fp.toQ fp001 ∧
    (∀ (q : Question) (a : PyVal) (u c : Fp),
      q.type = "numeric" → isNoneOrEmpty a = false →
      parseFloat (pyStr a) = some u → pyFloat q.correct = some c →
      (score_answer q a = true ↔ |Fp.toQ (fpSub u c)| < Fp.toQ fp001)) ∧
    (∀ (q : Question) (a : PyVal), q.type = "numeric" →
      parseFloat (pyStr a) = Option.none → score_answer q a = false) ∧
    (∀ (q : Question) (a : PyVal), q.type = "numeric" →
      pyFloat q.correct = Option.none → score_answer q a = false) := by
  refine ⟨by decide, by decide, by decide, by decide, by decide, by decide,
    (fpAbsLt_iff _ _).mp (by decide), ?_, ?_, ?_⟩
  · intro q a u c ht hne hu hc
    rw [score_answer, hne]
    simp only [Bool.false_eq_true, if_false]
    delta score_body
    rw [ht]
    simp only [String.reduceEq, if_false, if_true, hu, hc]
    exact fpAbsLt_iff (fpSub u c) fp001
  · intro q a ht hu
    rw [score_answer]
    by_cases hne : isNoneOrEmpty a = true
    · rw [hne]; simp
    · rw [Bool.not_eq_true] at hne
      rw [hne]
      simp only [Bool.false_eq_true, if_false]
      delta score_body
      rw [ht]
      simp only [String.reduceEq, if_false, if_true, hu]
  · intro q a ht hc
    rw [score_answer]
    by_cases hne : isNoneOrEmpty a = true
    · rw [hne]; simp
    · rw [Bool.not_eq_true] at hne
      rw [hne]
      simp only [Bool.false_eq_true, if_false]
      delta score_body
      rw [ht]
      simp only [String.reduceEq, if_false, if_true, hc]
      cases parseFloat (pyStr a) <;> rfl

/-- C3 witness: the general binary64 tolerance rule applied to the concrete
pair ("10.5" against correct "10.50"), both parsing to the double
5910974510923776 * 2^-49 = 10.5. -/
theorem C3_witness :
    (qNum.type = "numeric" ∧ isNoneOrEmpty (PyVal.str "10.5") = false ∧
     parseFloat (pyStr (PyVal.str "10.5")) = some ⟨5910974510923776, -49⟩ ∧
     pyFloat qNum.correct = some ⟨5910974510923776, -49⟩) ∧
    (score_answer qNum (.str "10.5") = true ↔
      |Fp.toQ (fpSub ⟨5910974510923776, -49⟩ ⟨5910974510923776, -49⟩)| < Fp.toQ fp001) :=
  ⟨⟨rfl, rfl, by decide, by decide⟩,
   C3_amended.2.2.2.2.2.2.2.1 qNum (.str "10.5")
     ⟨5910974510923776, -49⟩ ⟨5910974510923776, -49⟩ rfl rfl (by decide) (by decide)⟩

/-- C6: scoring is fail-closed.  For every question and submitted answer an
absent (None) or empty-string answer scores false; every Python error the
scoring body raises is caught and resolved to false (never surfaced); and
representative malformed inputs — a non-list answer to a multiple-answer
question, a non-integer `correct` on a multiple-choice question, an
unparseable numeric answer — all score false. -/
theorem C6_fail_closed (q : Question) (a : PyVal) :
    score_answer q PyVal.none = false ∧
    score_answer q (PyVal.str "") = false ∧
    (∀ e, score_body q a = Except.error e → score_answer q a = false) ∧
    (q.type = "ma" → a.isListV = false → score_answer q a = false) ∧
    (q.type = "mc" → (∀ n : Int, q.correct ≠ PyVal.int n) → score_answer q a = false) ∧
    (q.type = "numeric" → parseFloat (pyStr a) = Option.none → score_answer q a = false) := by
  refine ⟨rfl, rfl, ?_, ?_, ?_, ?_⟩
  · intro e he
    rw [score_answer]
    by_cases hne : isNoneOrEmpty a = true
    · rw [hne]; simp
    · rw [Bool.not_eq_true] at hne
      rw [hne]
      simp [he]
  · intro ht hl
    rw [score_answer]
    by_cases hne : isNoneOrEmpty a = true
    · rw [hne]; simp
    · rw [Bool.not_eq_true] at hne
      rw [hne]
      simp only [Bool.false_eq_true, if_false]
      delta score_body
      rw [ht]
      simp only [String.reduceEq, if_false, if_true]
      cases a with
      | listV ua => simp [PyVal.isListV] at hl
      | none => rfl
      | str s => rfl
      | int n => rfl
  · intro ht hn
    rw [score_answer]
    by_cases hne : isNoneOrEmpty a = true
    · rw [hne]; simp
    · rw [Bool.not_eq_true] at hne
      rw [hne]
      simp only [Bool.false_eq_true, if_false]
      delta score_body
      rw [ht]
      simp only [String.reduceEq, if_true]
  · intro ht hp
    rw [score_answer]
    by_cases hne : isNoneOrEmpty a = true
    · rw [hne]; simp
    · rw [Bool.not_eq_true] at hne
      rw [hne]
      simp only [Bool.false_eq_true, if_false]
      delta score_body
      rw [ht]
      simp only [String.reduceEq, if_false, if_true, hp]

/-- C6 witness: a string answer to the multiple-answer question scores
false (type mismatch resolved to incorrect, not an error). -/
theorem C6_witness :
    (qMA.type = "ma" ∧ (PyVal.str "Option A").isListV = false) ∧
    score_answer qMA (.str "Option A") = false :=
  ⟨⟨rfl, rfl⟩, (C6_fail_closed qMA (.str "Option A")).2.2.2.1 rfl rfl⟩

theorem strsOf_mem (l : List PyVal) (s : String) :
    s ∈ strsOf l ↔ PyVal.str s ∈ l := by
  unfold strsOf
  rw [List.mem_filterMap]
  constructor
  · rintro ⟨v, hv, he⟩
    cases v <;> simp_all
  · intro h
    exact ⟨PyVal.str s, h, rfl⟩

theorem maTexts_valid (os : List String) (cs : List Int)
    (hv : ∀ n ∈ cs, 0 ≤ n ∧ n < (os.length : Int)) :
    maTexts (some os) (cs.map PyVal.int) = .ok (cs.map (fun n => os.getD n.toNat "")) := by
  induction cs with
  | nil => rfl
  | cons n rest ih =>
      obtain ⟨h0, hlt⟩ := hv n (List.mem_cons_self n rest)
      have hrest := ih (fun m hm => hv m (List.mem_cons_of_mem n hm))
      simp only [List.map_cons]
      show (if n < (os.length : Int) then
              match pyIndexStr os n with
              | .error e => .error e
              | .ok t =>
                  match maTexts (some os) (rest.map PyVal.int) with
                  | .error e => .error e
                  | .ok ts => Except.ok (t :: ts)
            else maTexts (some os) (rest.map PyVal.int)) = _
      have hidx : pyIndexStr os n = .ok (os.getD n.toNat "") := by
        delta pyIndexStr
        rw [if_pos h0, if_pos hlt]
      rw [if_pos hlt, hidx, hrest]

/-- C7: multiple-answer scoring has set semantics.  For a multiple_answer
question whose `correct` is a list of valid option indices, a submitted
list is correct exactly when every submitted element is a string and the
set of submitted strings equals the set of option strings indexed by
`correct`; consequently scoring is invariant under permutation and
duplication of the submitted list (any two lists with the same members
score identically). -/
theorem C7_ma_set_semantics (q : Question) (os : List String) (cs : List Int)
    (ht : q.type = "ma") (hop : q.options = some os)
    (hc : q.correct = PyVal.listV (cs.map PyVal.int))
    (hv : ∀ n ∈ cs, 0 ≤ n ∧ n < (os.length : Int)) :
    (∀ ua, score_answer q (.listV ua) = true ↔
        ((∀ x ∈ ua, x.isStr = true) ∧
         ∀ s, s ∈ strsOf ua ↔ s ∈ cs.map (fun n => os.getD n.toNat ""))) ∧
    (∀ ua vb, (∀ x : PyVal, x ∈ ua ↔ x ∈ vb) →
        score_answer q (.listV ua) = score_answer q (.listV vb)) := by
  have hchar : ∀ ua, score_answer q (.listV ua) = true ↔
      ((∀ x ∈ ua, x.isStr = true) ∧
       ∀ s, s ∈ strsOf ua ↔ s ∈ cs.map (fun n => os.getD n.toNat "")) := by
    intro ua
    rw [score_answer]
    rw [show isNoneOrEmpty (.listV ua) = false from rfl]
    simp only [Bool.false_eq_true, if_false]
    delta score_body
    rw [ht]
    simp only [String.reduceEq, if_false, if_true]
    rw [hc, hop]
    rw [show (match PyVal.listV (cs.map PyVal.int) with
              | PyVal.listV l => l
              | c => [c]) = cs.map PyVal.int from rfl]
    rw [maTexts_valid os cs hv]
    delta pySetEq
    by_cases hany : ua.any PyVal.isListV = true
    · simp only [hany, if_true]
      simp only [Bool.false_eq_true, false_iff]
      rintro ⟨hall, -⟩
      obtain ⟨x, hx, hlx⟩ := List.any_eq_true.mp hany
      have := hall x hx
      cases x <;> simp_all [PyVal.isStr, PyVal.isListV]
    · rw [Bool.not_eq_true] at hany
      simp only [hany, Bool.false_eq_true, if_false]
      simp only [Bool.and_eq_true, List.all_eq_true, List.elem_iff]
      constructor
      · rintro ⟨h1, h2, h3⟩
        exact ⟨h1, fun s => ⟨fun hs => h2 s hs, fun hs => h3 s hs⟩⟩
      · rintro ⟨h1, h2⟩
        exact ⟨h1, fun s hs => (h2 s).mp hs, fun s hs => (h2 s).mpr hs⟩
  refine ⟨hchar, fun ua vb hmem => ?_⟩
  rw [Bool.eq_iff_iff, hchar ua, hchar vb]
  constructor
  · rintro ⟨h1, h2⟩
    refine ⟨fun x hx => h1 x ((hmem x).mpr hx), fun s => ?_⟩
    exact ((strsOf_mem vb s).trans ((hmem (PyVal.str s)).symm.trans
      ((strsOf_mem ua s).symm.trans (h2 s))))
  · rintro ⟨h1, h2⟩
    refine ⟨fun x hx => h1 x ((hmem x).mp hx), fun s => ?_⟩
    exact ((strsOf_mem ua s).trans ((hmem (PyVal.str s)).trans
      ((strsOf_mem vb s).symm.trans (h2 s))))

/-- C7 witness: the concrete ma question with correct = [0, 2] scores
["Option A","Option C"] and its permutation ["Option C","Option A"]
identically. -/
theorem C7_witness :
    (qMA.type = "ma" ∧ qMA.options = some ["Option A", "Option B", "Option C"] ∧
     qMA.correct = PyVal.listV (([0, 2] : List Int).map PyVal.int) ∧
     (∀ n ∈ ([0, 2] : List Int), 0 ≤ n ∧
        n < ((["Option A", "Option B", "Option C"] : List String).length : Int))) ∧
    score_answer qMA (.listV [.str "Option A", .str "Option C"]) =
      score_answer qMA (.listV [.str "Option C", .str "Option A"]) := by
  refine ⟨⟨rfl, rfl, rfl, by decide⟩, ?_⟩
  refine (C7_ma_set_semantics qMA ["Option A", "Option B", "Option C"] [0, 2]
    rfl rfl rfl (by decide)).2 _ _ ?_
  intro x
  simp only [List.mem_cons, List.not_mem_nil, or_false]
  tauto

theorem pyRound1_zero : pyRound1 0 = 0 := by
  unfold pyRound1 roundHalfEven
  norm_num

theorem suffix_eq_drop {α : Type} {s l : List α} (h : s <:+ l) :
    s = l.drop (l.length - s.length) := by
  obtain ⟨t, rfl⟩ := h
  rw [List.length_append, Nat.add_sub_cancel, List.drop_left]

theorem lastN_length_le {α : Type} (n : Nat) (l : List α) : (lastN n l).length ≤ n := by
  unfold lastN
  rw [List.length_drop]
  omega

theorem lastN_append {α : Type} (n : Nat) (l l' : List α) :
    lastN n (lastN n l ++ l') = lastN n (l ++ l') := by
  have h1 : lastN n l <:+ l := List.drop_suffix _ _
  have h3 : lastN n l ++ l' <:+ l ++ l' := by
    obtain ⟨t, ht⟩ := h1
    exact ⟨t, by rw [← List.append_assoc, ht]⟩
  have h2 : lastN n (lastN n l ++ l') <:+ l ++ l' :=
    (List.drop_suffix _ _).trans h3
  have h4 : lastN n (l ++ l') <:+ l ++ l' := List.drop_suffix _ _
  have e2 := suffix_eq_drop h2
  have e4 := suffix_eq_drop h4
  have hlen : (lastN n (lastN n l ++ l')).length = (lastN n (l ++ l')).length := by
    unfold lastN
    simp only [List.length_drop, List.length_append]
    omega
  rw [e2, e4, hlen]

theorem lastN_of_length_le {α : Type} (n : Nat) (l : List α) (h : l.length ≤ n) :
    lastN n l = l := by
  unfold lastN
  have : l.length - n = 0 := by omega
  rw [this, List.drop_zero]

theorem entriesOf_length (catalog : List Question) (now : Nat) :
    ∀ (ts : List CurrentTest) (es : List HistoryEntry),
      entriesOf catalog now ts = some es → es.length = ts.length := by
  intro ts
  induction ts with
  | nil =>
      intro es hes
      rw [entriesOf] at hes
      cases hes
      rfl
  | cons t ts ih =>
      intro es hes
      rw [entriesOf] at hes
      cases he : entryOf catalog now t with
      | none => rw [he] at hes; cases hes
      | some e =>
          cases hts : entriesOf catalog now ts with
          | none => rw [he, hts] at hes; cases hes
          | some es' =>
              rw [he, hts] at hes
              cases hes
              simp [ih es' hts]

theorem runSessions_history (catalog : List Question) (now : Nat) :
    ∀ (ts : List CurrentTest) (s : Session) (es : List HistoryEntry),
      s.test_history.length ≤ 10 →
      entriesOf catalog now ts = some es →
      ∃ s', runSessions catalog now s ts = some s' ∧
        s'.test_history = lastN 10 (s.test_history ++ es) := by
  intro ts
  induction ts with
  | nil =>
      intro s es hlen hes
      rw [entriesOf] at hes
      cases hes
      refine ⟨s, rfl, ?_⟩
      rw [List.append_nil, lastN_of_length_le _ _ hlen]
  | cons t ts ih =>
      intro s es hlen hes
      rw [entriesOf] at hes
      cases he : entryOf catalog now t with
      | none => rw [he] at hes; cases hes
      | some e =>
          cases hts : entriesOf catalog now ts with
          | none => rw [he, hts] at hes; cases hes
          | some es' =>
              rw [he, hts] at hes
              cases hes
              have hstep : installAndSubmit catalog now s t =
                  some { s with
                    test_history := lastN 10 (s.test_history ++ [e]),
                    last_results := some ⟨e.accuracy, e.correct, e.total⟩,
                    current_test := Option.none } := by
                unfold installAndSubmit submit_test
                simp only [he]
                rfl
              obtain ⟨s', hrun, hhist⟩ :=
                ih { s with
                      test_history := lastN 10 (s.test_history ++ [e]),
                      last_results := some ⟨e.accuracy, e.correct, e.total⟩,
                      current_test := Option.none }
                  es' (lastN_length_le 10 _) hts
              refine ⟨s', ?_, ?_⟩
              · rw [runSessions, hstep]
                exact hrun
              · rw [hhist]
                show lastN 10 (lastN 10 (s.test_history ++ [e]) ++ es') = _
                rw [lastN_append, List.append_assoc, List.singleton_append]

theorem lastN_getLast {α : Type} (n : Nat) (hn : 0 < n) (l : List α) (x : α) :
    (lastN n (l ++ [x])).getLast? = some x := by
  unfold lastN
  have hk : (l ++ [x]).length - n ≤ l.length := by
    simp only [List.length_append, List.length_cons, List.length_nil]
    omega
  rw [List.drop_append_of_le_length hk, List.getLast?_concat]

/-- C9: on finalize, the recorded accuracy (in last_results and in the
appended history entry) is round(correctCount / totalCount * 100) to one
decimal place whenever totalCount > 0, and is 0 (with no division) when
totalCount = 0. -/
theorem C9_accuracy (catalog : List Question) (now : Nat) (s : Session) (t : CurrentTest)
    (s' : Session) (ht : s.current_test = some t)
    (hsub : submit_test catalog now s = some s') :
    (∀ r, s'.last_results = some r →
      (r.total = 0 → r.accuracy = 0) ∧
      (0 < r.total → r.accuracy = pyRound1 ((r.correct : ℚ) / r.total * 100))) ∧
    (∀ e, s'.test_history.getLast? = some e →
      (e.total = 0 → e.accuracy = 0) ∧
      (0 < e.total → e.accuracy = pyRound1 ((e.correct : ℚ) / e.total * 100))) := by
  unfold submit_test at hsub
  rw [ht] at hsub
  simp only [] at hsub
  cases he : entryOf catalog now t with
  | none => rw [he] at hsub; cases hsub
  | some e0 =>
      rw [he] at hsub
      simp only [Option.map_some'] at hsub
      obtain rfl := Option.some.inj hsub
      unfold entryOf at he
      cases hg : gradeAll catalog t.answers t.question_ids with
      | none => rw [hg] at he; cases he
      | some res =>
          rw [hg] at he
          simp only [Option.map_some'] at he
          obtain rfl := Option.some.inj he
          have hfacts : ∀ (x : HistoryEntry),
              x = ⟨now, t.format,
                    pyRound1 (if 0 < t.question_ids.length then
                      (res.count true : ℚ) / t.question_ids.length * 100 else 0),
                    res.count true, t.question_ids.length⟩ →
              (x.total = 0 → x.accuracy = 0) ∧
              (0 < x.total → x.accuracy = pyRound1 ((x.correct : ℚ) / x.total * 100)) := by
            rintro x rfl
            constructor
            · intro h0
              simp only at h0
              simp only [h0, Nat.lt_irrefl, if_false]
              exact pyRound1_zero
            · intro hpos
              simp only at hpos
              simp only [if_pos hpos]
          constructor
          · intro r hr
            simp only at hr
            obtain rfl := Option.some.inj hr
            have := hfacts ⟨now, t.format,
              pyRound1 (if 0 < t.question_ids.length then
                (res.count true : ℚ) / t.question_ids.length * 100 else 0),
              res.count true, t.question_ids.length⟩ rfl
            simpa using this
          · intro e he'
            simp only at he'
            rw [lastN_getLast 10 (by norm_num)] at he'
            obtain rfl := Option.some.inj he'
            exact hfacts _ rfl

/-- C9 witness: a one-question test answered correctly finalizes with
total = 1 and accuracy = round(1/1*100, 1). -/
theorem C9_witness :
    (sess1.current_test = some t1 ∧
     submit_test cat1 0 sess1 = some ((submit_test cat1 0 sess1).getD sess1)) ∧
    (0 < (((submit_test cat1 0 sess1).getD sess1).last_results.getD ⟨0, 0, 0⟩).total ∧
     (((submit_test cat1 0 sess1).getD sess1).last_results.getD ⟨0, 0, 0⟩).accuracy =
       pyRound1 (((((submit_test cat1 0 sess1).getD sess1).last_results.getD
           ⟨0, 0, 0⟩).correct : ℚ) /
         (((submit_test cat1 0 sess1).getD sess1).last_results.getD ⟨0, 0, 0⟩).total * 100)) := by
  refine ⟨⟨rfl, rfl⟩, ⟨by decide, ?_⟩⟩
  exact ((C9_accuracy cat1 0 sess1 t1 ((submit_test cat1 0 sess1).getD sess1) rfl rfl).1
    (((submit_test cat1 0 sess1).getD sess1).last_results.getD ⟨0, 0, 0⟩) rfl).2 (by decide)

/-- C5: the history log is a bounded FIFO of length at most 10.  Finalizing
any sequence of sessions from a history of length at most 10 leaves exactly
the last 10 of (old history ++ appended entries) in append (chronological)
order; in particular finalizing 11 sessions from an empty history leaves
exactly 10 entries, the first (oldest) appended entry having been evicted. -/
theorem C5_history_fifo (catalog : List Question) (now : Nat) (s0 : Session)
    (ts : List CurrentTest) (es : List HistoryEntry) (s' : Session)
    (hlen : s0.test_history.length ≤ 10)
    (hes : entriesOf catalog now ts = some es)
    (hrun : runSessions catalog now s0 ts = some s') :
    s'.test_history = lastN 10 (s0.test_history ++ es) ∧
    (s0.test_history = [] → ts.length = 11 →
      s'.test_history.length = 10 ∧ s'.test_history = es.drop 1) := by
  obtain ⟨s'', hrun', hhist⟩ := runSessions_history catalog now ts s0 es hlen hes
  rw [hrun] at hrun'
  obtain rfl := Option.some.inj hrun'
  refine ⟨hhist, fun h0 h11 => ?_⟩
  have hlen_es : es.length = 11 := by
    rw [entriesOf_length catalog now ts es hes, h11]
  rw [hhist, h0, List.nil_append]
  constructor
  · unfold lastN
    rw [List.length_drop, hlen_es]
  · unfold lastN
    rw [hlen_es]

/-- C5 witness: eleven finalized empty sessions starting from an empty
history leave a log of length exactly 10 with the first entry evicted. -/
theorem C5_witness :
    (sess0.test_history.length ≤ 10 ∧ entriesOf cat1 0 ts11 = some es11 ∧
     sess0.test_history = [] ∧ ts11.length = 11) ∧
    (((runSessions cat1 0 sess0 ts11).getD sess0).test_history.length = 10 ∧
     ((runSessions cat1 0 sess0 ts11).getD sess0).test_history = es11.drop 1) := by
  refine ⟨⟨by decide, rfl, rfl, by decide⟩, ?_⟩
  exact (C5_history_fifo cat1 0 sess0 ts11 es11
    ((runSessions cat1 0 sess0 ts11).getD sess0) (by decide) rfl rfl).2 rfl rfl

theorem selectLoop_cons (smp : Sampler) (av : List Question) (i : Nat) (t : String)
    (c : Nat) (tl : List (String × Nat)) (sel : List Question) :
    selectLoop smp av i ((t, c) :: tl) sel =
      selectLoop smp av (i + 1) tl
        (sel ++ (if (av.filter (fun q => q.type == t &&
                    !((selectedIds sel).contains q.id))).length ≥ c
                 then smp.sample i (av.filter (fun q => q.type == t &&
                    !((selectedIds sel).contains q.id))) c
                 else av.filter (fun q => q.type == t &&
                    !((selectedIds sel).contains q.id)))) := rfl

theorem selectLoop_spec (smp : Sampler) (hs : SampleSpec smp) (av : List Question)
    (hav : (av.map Question.id).Nodup) :
    ∀ (ts : List (String × Nat)) (i : Nat) (sel : List Question),
      (sel.map Question.id).Nodup →
      ∃ suf, selectLoop smp av i ts sel = sel ++ suf ∧
        (∀ q ∈ suf, q ∈ av) ∧
        ((sel ++ suf).map Question.id).Nodup ∧
        suf.length ≤ (ts.map Prod.snd).sum := by
  intro ts
  induction ts with
  | nil =>
      intro i sel hsel
      refine ⟨[], by simp [selectLoop], by simp, ?_, by simp⟩
      simpa using hsel
  | cons hd tl ih =>
      intro i sel hsel
      obtain ⟨t, c⟩ := hd
      rw [selectLoop_cons]
      have htq_av : ∀ q ∈ av.filter (fun q => q.type == t &&
          !((selectedIds sel).contains q.id)), q ∈ av :=
        fun q hq => (List.mem_filter.mp hq).1
      have htq_nodup : ((av.filter (fun q => q.type == t &&
          !((selectedIds sel).contains q.id))).map Question.id).Nodup :=
        hav.sublist ((List.filter_sublist av).map Question.id)
      have htq_not_sel : ∀ q ∈ av.filter (fun q => q.type == t &&
          !((selectedIds sel).contains q.id)), ¬ q.id ∈ sel.map Question.id := by
        intro q hq hmem
        have h2 := (List.mem_filter.mp hq).2
        simp only [Bool.and_eq_true, Bool.not_eq_true'] at h2
        have hc := List.elem_iff.mpr (show q.id ∈ selectedIds sel from hmem)
        have h3 : List.elem q.id (selectedIds sel) = false := h2.2
        rw [h3] at hc
        cases hc
      have main : ∀ picked : List Question,
          (∀ q ∈ picked, q ∈ av.filter (fun q => q.type == t &&
              !((selectedIds sel).contains q.id))) →
          ((picked.map Question.id).Nodup) →
          picked.length ≤ c →
          ∃ suf, selectLoop smp av (i + 1) tl (sel ++ picked) = sel ++ suf ∧
            (∀ q ∈ suf, q ∈ av) ∧
            ((sel ++ suf).map Question.id).Nodup ∧
            suf.length ≤ (((t, c) :: tl).map Prod.snd).sum := by
        intro picked pmem pnodup plen
        have hsel' : ((sel ++ picked).map Question.id).Nodup := by
          rw [List.map_append, List.nodup_append]
          refine ⟨hsel, pnodup, ?_⟩
          intro a ha hb
          obtain ⟨q, hq, rfl⟩ := List.mem_map.mp hb
          exact htq_not_sel q (pmem q hq) ha
        obtain ⟨suf', heq', hmem', hnodup', hlen'⟩ := ih (i + 1) (sel ++ picked) hsel'
        refine ⟨picked ++ suf', ?_, ?_, ?_, ?_⟩
        · rw [heq', List.append_assoc]
        · intro q hq
          rcases List.mem_append.mp hq with h | h
          · exact htq_av q (pmem q h)
          · exact hmem' q h
        · rw [← List.append_assoc]
          exact hnodup'
        · simp only [List.map_cons, List.sum_cons, List.length_append]
          omega
      by_cases hlen : (av.filter (fun q => q.type == t &&
          !((selectedIds sel).contains q.id))).length ≥ c
      · rw [if_pos hlen]
        exact main _ (sample_mem hs hlen) (sample_nodup hs hlen htq_nodup)
          (le_of_eq (hs.sample_len i _ c hlen))
      · rw [if_neg hlen]
        exact main _ (fun q hq => hq) htq_nodup (le_of_not_le hlen)

theorem availableQs_eq (catalog : List Question) (bitmap : List Nat) :
    availableQs catalog bitmap = catalog.filter (fun q => !(is_attempted bitmap q.id)) := by
  unfold availableQs
  apply List.filter_congr
  intro q hq
  by_cases h : is_attempted bitmap q.id = true
  · have hm : q.id ∈ get_attempted_questions catalog bitmap :=
      List.mem_map.mpr ⟨q, List.mem_filter.mpr ⟨hq, h⟩, rfl⟩
    have hc : (get_attempted_questions catalog bitmap).contains q.id = true :=
      List.elem_iff.mpr hm
    rw [hc, h]
  · rw [Bool.not_eq_true] at h
    have hc : (get_attempted_questions catalog bitmap).contains q.id = false := by
      by_contra hcc
      rw [Bool.not_eq_false] at hcc
      have hcc' : List.elem q.id (get_attempted_questions catalog bitmap) = true := hcc
      obtain ⟨q', hq', hid⟩ := List.mem_map.mp (List.elem_iff.mp hcc')
      have hatt := (List.mem_filter.mp hq').2
      rw [hid, h] at hatt
      cases hatt
    rw [hc, h]

theorem backfill_spec (smp : Sampler) (hs : SampleSpec smp) (av : List Question)
    (hav : (av.map Question.id).Nodup) (num : Nat) (sel : List Question)
    (hmem : ∀ q ∈ sel, q ∈ av) (hnodup : (sel.map Question.id).Nodup)
    (hle : sel.length ≤ num) (hnum : num ≤ av.length) :
    (backfill smp av num sel).length = num ∧
    (∀ q ∈ backfill smp av num sel, q ∈ av) ∧
    ((backfill smp av num sel).map Question.id).Nodup := by
  unfold backfill
  by_cases hb : sel.length < num
  · rw [if_pos hb]
    have hsub : (av.filter (fun q => (selectedIds sel).contains q.id)).length ≤ sel.length := by
      have h1 : ((av.filter (fun q => (selectedIds sel).contains q.id)).map Question.id).Nodup :=
        hav.sublist ((List.filter_sublist av).map Question.id)
      have h2 : ∀ a ∈ (av.filter (fun q => (selectedIds sel).contains q.id)).map Question.id,
          a ∈ selectedIds sel := by
        intro a ha
        obtain ⟨q, hq, rfl⟩ := List.mem_map.mp ha
        have h3 : List.elem q.id (selectedIds sel) = true := (List.mem_filter.mp hq).2
        exact List.elem_iff.mp h3
      have h4 := (h1.subperm h2).length_le
      rw [List.length_map] at h4
      simpa [selectedIds] using h4
    have hsplit := length_filter_split av (fun q => (selectedIds sel).contains q.id)
    have hneed : num - sel.length ≤
        (av.filter (fun q => !((selectedIds sel).contains q.id))).length := by omega
    have hmin : min (num - sel.length)
        ((av.filter (fun q => !((selectedIds sel).contains q.id))).length) =
        num - sel.length := Nat.min_eq_left hneed
    have hrem_nodup : ((av.filter (fun q => !((selectedIds sel).contains q.id))).map
        Question.id).Nodup :=
      hav.sublist ((List.filter_sublist av).map Question.id)
    have hpick_len : (smp.sample 4 (av.filter (fun q => !((selectedIds sel).contains q.id)))
        (num - sel.length)).length = num - sel.length :=
      hs.sample_len 4 _ _ hneed
    have hpick_mem := sample_mem hs (i := 4)
      (l := av.filter (fun q => !((selectedIds sel).contains q.id)))
      (k := num - sel.length) hneed
    have hpick_nodup := sample_nodup hs (i := 4)
      (l := av.filter (fun q => !((selectedIds sel).contains q.id)))
      (k := num - sel.length) hneed hrem_nodup
    refine ⟨?_, ?_, ?_⟩
    · show (sel ++ smp.sample 4 (av.filter (fun q => !((selectedIds sel).contains q.id)))
        (min (num - sel.length)
          ((av.filter (fun q => !((selectedIds sel).contains q.id))).length))).length = num
      rw [hmin, List.length_append, hpick_len]
      omega
    · intro q hq
      have hq' : q ∈ sel ++ smp.sample 4
          (av.filter (fun q => !((selectedIds sel).contains q.id)))
          (min (num - sel.length)
            ((av.filter (fun q => !((selectedIds sel).contains q.id))).length)) := hq
      rw [hmin] at hq'
      rcases List.mem_append.mp hq' with h | h
      · exact hmem q h
      · exact (List.mem_filter.mp (hpick_mem q h)).1
    · show ((sel ++ smp.sample 4 (av.filter (fun q => !((selectedIds sel).contains q.id)))
        (min (num - sel.length)
          ((av.filter (fun q => !((selectedIds sel).contains q.id))).length))).map
        Question.id).Nodup
      rw [hmin, List.map_append, List.nodup_append]
      refine ⟨hnodup, hpick_nodup, ?_⟩
      intro a ha hb'
      obtain ⟨q, hq, rfl⟩ := List.mem_map.mp hb'
      have h5 := (List.mem_filter.mp (hpick_mem q hq)).2
      rw [Bool.not_eq_true'] at h5
      have h6 := List.elem_iff.mpr (show q.id ∈ selectedIds sel from ha)
      have h7 : List.elem q.id (selectedIds sel) = false := h5
      rw [h7] at h6
      cases h6
  · rw [if_neg hb]
    exact ⟨by omega, hmem, hnodup⟩

/-- C4: whenever at least `count` catalog questions are outside the
AttemptedSet, select_questions returns exactly `count` questions with
pairwise distinct ids, all drawn from the catalog, and none of them marked
attempted in the bitmap — for every possible outcome of the random draws. -/
theorem C4_selection (smp : Sampler) (catalog : List Question) (bitmap : List Nat)
    (num : Nat) (hs : SampleSpec smp)
    (hcat : (catalog.map Question.id).Nodup)
    (hge : num ≤ (availableQs catalog bitmap).length) :
    (select_questions smp catalog bitmap num).1.length = num ∧
    ((select_questions smp catalog bitmap num).1.map Question.id).Nodup ∧
    (∀ q ∈ (select_questions smp catalog bitmap num).1, q ∈ catalog) ∧
    (∀ q ∈ (select_questions smp catalog bitmap num).1,
      is_attempted bitmap q.id = false) := by
  have hex : ¬ (availableQs catalog bitmap).length < num := not_lt.mpr hge
  have hav_nodup : ((availableQs catalog bitmap).map Question.id).Nodup :=
    hcat.sublist ((List.filter_sublist catalog).map Question.id)
  obtain ⟨suf, heq, hmem, hnodup, hlen⟩ :=
    selectLoop_spec smp hs (availableQs catalog bitmap) hav_nodup
      (target_types num) 0 [] (by simp)
  rw [List.nil_append] at heq hnodup
  rw [target_types_sum] at hlen
  obtain ⟨hblen, hbmem, hbnodup⟩ := backfill_spec smp hs (availableQs catalog bitmap)
    hav_nodup num suf hmem hnodup hlen hge
  have hsel : select_questions smp catalog bitmap num =
      ((smp.shuffle (backfill smp (availableQs catalog bitmap) num suf)).take num,
       bitmap) := by
    show ((smp.shuffle (backfill smp
        (if (availableQs catalog bitmap).length < num then catalog
         else availableQs catalog bitmap) num
        (selectLoop smp
          (if (availableQs catalog bitmap).length < num then catalog
           else availableQs catalog bitmap) 0 (target_types num) []))).take num,
      if (availableQs catalog bitmap).length < num then ([] : List Nat) else bitmap) = _
    simp only [if_neg hex]
    rw [heq]
  have hperm := hs.shuffle_perm (backfill smp (availableQs catalog bitmap) num suf)
  have hslen : (smp.shuffle (backfill smp (availableQs catalog bitmap) num suf)).length =
      num := by
    rw [hperm.length_eq, hblen]
  have htake : (smp.shuffle (backfill smp (availableQs catalog bitmap) num suf)).take num =
      smp.shuffle (backfill smp (availableQs catalog bitmap) num suf) := by
    exact List.take_of_length_le (le_of_eq hslen)
  rw [htake] at hsel
  have hmem_av : ∀ q ∈ (select_questions smp catalog bitmap num).1,
      q ∈ availableQs catalog bitmap := by
    intro q hq
    rw [hsel] at hq
    exact hbmem q (hperm.mem_iff.mp hq)
  refine ⟨?_, ?_, ?_, ?_⟩
  · rw [hsel]
    exact hslen
  · rw [hsel]
    exact (hperm.map Question.id).nodup_iff.mpr hbnodup
  · intro q hq
    have h := hmem_av q hq
    rw [availableQs_eq] at h
    exact (List.mem_filter.mp h).1
  · intro q hq
    have h := hmem_av q hq
    rw [availableQs_eq] at h
    have h2 := (List.mem_filter.mp h).2
    rwa [Bool.not_eq_true'] at h2

/-- C4 witness: a four-question catalog with an empty AttemptedSet and
count = 1, under the deterministic take-from-the-front sampler. -/
theorem C4_witness :
    ((cat4.map Question.id).Nodup ∧ 1 ≤ (availableQs cat4 []).length) ∧
    ((select_questions takeSampler cat4 [] 1).1.length = 1 ∧
     ∀ q ∈ (select_questions takeSampler cat4 [] 1).1,
       is_attempted [] q.id = false) := by
  refine ⟨⟨by decide, by decide⟩, ?_⟩
  have h := C4_selection takeSampler cat4 [] 1 takeSampler_spec (by decide) (by decide)
  exact ⟨h.1, h.2.2.2⟩
